import Mathlib

/-!
# Verification of the epoll reactor (`src/eventloop/epoll.go`)

The reactor talks to the outside world only through system calls
(`unix.EpollWait`, `unix.EpollCtl`, `unix.Write`, `unix.Close`), through the
collaborator interfaces (`iface.IConnectManager`, `iface.IConnect`, the packer)
and through the outbound channel.  The embedding makes every such interaction
explicit:

* each external call is appended to a trace of `Call`s;
* the value an external call returns is an input of the embedded function
  (an oracle answer), so that a theorem quantifying over the answers covers
  every behaviour of the environment;
* a Go run-time panic (slice bounds) is an explicit outcome.
-/

namespace Netman

/-! ## Data model -/

/-- One octet of a buffer; the reactor never inspects the value of a byte. -/
abbrev Byte := Nat

/-- Go `error` values that the reactor can observe.  `errno` stands for
`syscall.Errno`, `EOF` for `io.EOF`, `HeadBytesLengthFail` for
`util.HeadBytesLengthFail`, and `other` for any further error value. -/
inductive Error where
  | errno (code : Nat)
  | EOF
  | HeadBytesLengthFail
  | other (msg : String)
  deriving DecidableEq

/-- The constant `unix.EAGAIN`. -/
def EAGAIN : Error := Error.errno 0xb

/-- The constant `unix.EINTR`. -/
def EINTR : Error := Error.errno 0x4

/-- The constant `unix.EPOLLIN`. -/
def EPOLLIN : Nat := 0x1

/-- The constant `unix.EPOLLPRI`. -/
def EPOLLPRI : Nat := 0x2

/-- The constant `unix.EPOLLOUT`. -/
def EPOLLOUT : Nat := 0x4

/-- The constant `unix.EPOLLERR`. -/
def EPOLLERR : Nat := 0x8

/-- The constant `unix.EPOLLHUP`. -/
def EPOLLHUP : Nat := 0x10

/-- The constant `unix.EPOLL_CTL_ADD`. -/
def EPOLL_CTL_ADD : Int := 1

/-- The constant `unix.EPOLL_CTL_DEL`. -/
def EPOLL_CTL_DEL : Int := 2

/-- The constant `unix.EPOLL_CTL_MOD`. -/
def EPOLL_CTL_MOD : Int := 3

/-- The record `unix.EpollEvent`: `Events` is a `uint32` mask, `Fd` and `Pad`
are `int32`. -/
structure EpollEvent where
  Events : Nat
  Fd : Int
  Pad : Int
  deriving DecidableEq

/-- The Go conversion `int32(x)` of a machine integer: wrap into
`[-2^31, 2^31)`. -/
def int32 (x : Int) : Int := (x + 2147483648) % 4294967296 - 2147483648

/-- Modelled from the spec: the connection object behind `iface.IConnect`, whose
implementation is not part of `src/`.  The spec (section 6) gives it a
descriptor, a logical identifier and a pending outbound buffer with a getter and
a setter; `GetFd`, `GetID`, `GetWriteBuff` read the fields and `SetWriteBuff`
replaces `writeBuff`. -/
structure Connect where
  fd : Int
  id : Int
  writeBuff : List Byte
  deriving DecidableEq

/-- Modelled from the spec: the framed message behind `iface.IMessage`, whose
implementation is not part of `src/`: a payload, and `Len` its length. -/
structure Message where
  payload : List Byte
  deriving DecidableEq

/-- The method `message.Len()`, a Go `int`. -/
def Message.Len (m : Message) : Int := (m.payload.length : Int)

/-- The value built by `util.NewRequest(conn, message)`. -/
structure Request where
  conn : Connect
  message : Message
  deriving DecidableEq

/-- The constructor `util.NewRequest`. -/
def NewRequest (conn : Connect) (message : Message) : Request :=
  { conn := conn, message := message }

/-- The pair `(n, err)` returned by `unix.Write`. -/
structure WriteResult where
  n : Int
  err : Option Error
  deriving DecidableEq

/-- The pair `(message, err)` returned by `ReadFull`. -/
structure ReadResult where
  message : Message
  err : Option Error
  deriving DecidableEq

/-- The external calls made by the reactor, in the order of the trace.
`EpollCtl`, `Write`, `Close` and `ConnClose` also record the answer. -/
inductive Call where
  | EpollWait (epfd : Int)
  | EpollCtl (epfd : Int) (op : Int) (fd : Int) (event : Option EpollEvent) (res : Option Error)
  | Write (fd : Int) (data : List Byte) (res : WriteResult)
  | Close (fd : Int) (res : Option Error)
  | ConnClose (conn : Connect) (res : Option Error)
  | MgrGet (fd : Int)
  | MgrRemove (conn : Connect)
  | MgrClearByEpFd (epfd : Int)
  | ReadFull (conn : Connect) (fd : Int)
  | Emit (req : Request)
  | Println
  | LogError
  deriving DecidableEq

/-- The part of `Poller` the reactor code reads: the epoll descriptor.  The
event buffer is the answer of `EpollWait`, the registry is an oracle. -/
structure Poller where
  Epfd : Int
  deriving DecidableEq

/-! ## Trace observers -/

/-- Any `epoll_ctl` call: an interest operation. -/
def Call.isEpollCtl : Call → Bool
  | .EpollCtl _ _ _ _ _ => true
  | _ => false

/-- A call of `unix.Write`; `DoWrite` makes exactly one per invocation. -/
def Call.isWrite : Call → Bool
  | .Write _ _ _ => true
  | _ => false

/-- A call of the framing reader `ReadFull`. -/
def Call.isReadFull : Call → Bool
  | .ReadFull _ _ => true
  | _ => false

/-- A send on the outbound channel. -/
def Call.isEmit : Call → Bool
  | .Emit _ => true
  | _ => false

/-- A call of `conn.Close()`. -/
def Call.isConnClose : Call → Bool
  | .ConnClose _ _ => true
  | _ => false

/-- A call of `unix.Close` on a raw descriptor. -/
def Call.isClose : Call → Bool
  | .Close _ _ => true
  | _ => false

/-- A call of `Poller.Remove`: `epoll_ctl` with `EPOLL_CTL_DEL`. -/
def Call.isRemove : Call → Bool
  | .EpollCtl _ op _ _ _ => decide (op = EPOLL_CTL_DEL)
  | _ => false

/-- A call of `ConnectMgr.Remove`. -/
def Call.isMgrRemove : Call → Bool
  | .MgrRemove _ => true
  | _ => false

/-- A call of `ConnectMgr.ClearByEpFd`. -/
def Call.isClear : Call → Bool
  | .MgrClearByEpFd _ => true
  | _ => false

/-- Any call on the registry (`Get`, `Remove`, `ClearByEpFd`). -/
def Call.isMgr : Call → Bool
  | .MgrGet _ => true
  | .MgrRemove _ => true
  | .MgrClearByEpFd _ => true
  | _ => false

/-! ## Interest registrar -/

/-- `Poller.ModRead`: one `epoll_ctl(EPOLL_CTL_MOD)` with read and priority
interest; `res` is what the kernel answers, which is also what is returned. -/
def ModRead (p : Poller) (fd connID : Int) (res : Option Error) : List Call × Option Error :=
  ([Call.EpollCtl p.Epfd EPOLL_CTL_MOD fd
      (some { Events := EPOLLIN ||| EPOLLPRI, Fd := int32 fd, Pad := int32 connID }) res], res)

/-- `Poller.Remove`: one `epoll_ctl(EPOLL_CTL_DEL)` with a nil event. -/
def Remove (p : Poller) (fd : Int) (res : Option Error) : List Call × Option Error :=
  ([Call.EpollCtl p.Epfd EPOLL_CTL_DEL fd none res], res)

/-! ## Write continuation -/

/-- How a Go function ends: it returns its `error` (nil is `none`), or it
panics. -/
inductive Result where
  | returned (err : Option Error)
  | panicked
  deriving DecidableEq

/-- What one invocation of `DoWrite` leaves behind: the connection, the calls
made, and how it ended. -/
structure DoWriteOut where
  conn : Connect
  calls : List Call
  res : Result
  deriving DecidableEq

/-- `Poller.DoWrite`.  `w` is the answer of `unix.Write(conn.GetFd(), dataBuff)`
and `ctl` the answer of the `epoll_ctl` behind `ModRead`.  The slice expression
`dataBuff[n:]` panics when `n` is outside `0..len(dataBuff)`. -/
def DoWrite (p : Poller) (conn : Connect) (w : WriteResult) (ctl : Option Error) : DoWriteOut :=
  let dataBuff := conn.writeBuff
  let wcall := Call.Write conn.fd dataBuff w
  match w.err with
  | some e => { conn := conn, calls := [wcall], res := Result.returned (some e) }
  | none =>
    if w.n < 0 ∨ (dataBuff.length : Int) < w.n then
      { conn := conn, calls := [wcall], res := Result.panicked }
    else
      let conn2 : Connect := { conn with writeBuff := dataBuff.drop w.n.toNat }
      if w.n < (dataBuff.length : Int) then
        { conn := conn2, calls := [wcall], res := Result.returned none }
      else
        let m := ModRead p conn2.fd conn2.id ctl
        { conn := conn2, calls := wcall :: m.1, res := Result.returned m.2 }

/-- The oracle answers for one invocation of `DoWrite` in a sequence: what
`unix.Write` returns and what the `epoll_ctl` of `ModRead` returns if it is
reached. -/
structure WriteStep where
  write : WriteResult
  modRead : Option Error
  deriving DecidableEq

/-- The state after a sequence of `DoWrite` invocations on one connection: the
connection as left by the last invocation and the outcome of each invocation,
in order. -/
structure DoWritesOut where
  conn : Connect
  outs : List DoWriteOut
  deriving DecidableEq

/-- Invoke `DoWrite` once per step on the same connection, each invocation
seeing the buffer left by the one before; a panic ends the sequence. -/
def DoWrites (p : Poller) : Connect → List WriteStep → DoWritesOut
  | conn, [] => { conn := conn, outs := [] }
  | conn, s :: rest =>
    let o := DoWrite p conn s.write s.modRead
    match o.res with
    | Result.panicked => { conn := o.conn, outs := [o] }
    | Result.returned _ =>
      let r := DoWrites p o.conn rest
      { conn := r.conn, outs := o :: r.outs }

/-- The bytes that the kernel accepted in a trace: a successful
`unix.Write(fd, data)` answering `n` sends the first `n` bytes of `data`. -/
def sentBytes : List Call → List Byte
  | [] => []
  | Call.Write _ data res :: rest =>
    (match res.err with
     | none => data.take res.n.toNat
     | some _ => []) ++ sentBytes rest
  | _ :: rest => sentBytes rest

/-- A `ModRead` call in a trace: `EPOLL_CTL_MOD` to read and priority
interest. -/
def Call.isModRead : Call → Bool
  | .EpollCtl _ op _ (some ev) _ => decide (op = EPOLL_CTL_MOD ∧ ev.Events = EPOLLIN ||| EPOLLPRI)
  | _ => false

/-- The trace of a sequence of invocations: the calls of each, in order. -/
def allCalls : List DoWriteOut → List Call
  | [] => []
  | o :: rest => o.calls ++ allCalls rest

/-- The byte counts answered by the writes of a sequence of steps. -/
def counts (steps : List WriteStep) : List Int :=
  steps.map fun s => s.write.n

/-! ## Kernel interest table -/

/-- Modelled from the spec: the interest set of the polling context (section
4.2), which lives in the kernel and not in `src/`: for each descriptor the
subscribed mask, or `none` when the descriptor is not registered. -/
abbrev Interest := Int → Option Nat

/-- Modelled from the spec: the effect of one call on the interest set of the
context `epfd`.  Only an `epoll_ctl` on that context that the kernel accepted
changes it: add and modify replace the mask, remove drops the registration. -/
def Interest.step (epfd : Int) (t : Interest) : Call → Interest
  | Call.EpollCtl e op fd ev none =>
    if e = epfd then
      if op = EPOLL_CTL_DEL then fun x => if x = fd then none else t x
      else
        match ev with
        | some v => fun x => if x = fd then some v.Events else t x
        | none => t
    else t
  | _ => t

/-- The interest set after a whole trace. -/
def Interest.run (epfd : Int) (t : Interest) (calls : List Call) : Interest :=
  calls.foldl (Interest.step epfd) t

/-- Write interest is registered for `fd`: it is registered and the mask has the
`EPOLLOUT` bit. -/
def Interest.hasWrite (t : Interest) (fd : Int) : Bool :=
  match t fd with
  | some m => decide (m &&& EPOLLOUT = EPOLLOUT)
  | none => false

/-! ## Event dispatch loop -/

/-- The oracle answers for the handling of one ready event: one answer for each
external call the loop body can make. -/
structure EventEnv where
  get : Option Connect
  closeFd : Option Error
  remove : Option Error
  write : WriteResult
  modRead : Option Error
  connClose : Option Error
  readFull : ReadResult
  deriving DecidableEq

/-- What the handling of one event leaves behind: the calls made, the
connection it resolved to (in its state afterwards), and whether the body
panicked instead of reaching the next iteration. -/
structure EventOut where
  calls : List Call
  conn : Option Connect
  panicked : Bool
  deriving DecidableEq

/-- The body of the `for i := 0; i < n; i++` loop of `Poller.Wait` for the event
`event = p.Events[i]`. -/
def handleEvent (p : Poller) (event : EpollEvent) (env : EventEnv) : EventOut :=
  let connFd := event.Fd
  match env.get with
  | none =>
    { calls := [Call.MgrGet connFd, Call.Close connFd env.closeFd] ++ (Remove p connFd env.remove).1,
      conn := none, panicked := false }
  | some conn =>
    if event.Events &&& EPOLLOUT = EPOLLOUT then
      let o := DoWrite p conn env.write env.modRead
      match o.res with
      | Result.panicked =>
        { calls := [Call.MgrGet connFd, Call.Println] ++ o.calls,
          conn := some o.conn, panicked := true }
      | Result.returned (some _) =>
        { calls := [Call.MgrGet connFd, Call.Println] ++ o.calls
            ++ [Call.ConnClose o.conn env.connClose] ++ (Remove p connFd env.remove).1
            ++ [Call.MgrRemove o.conn, Call.LogError],
          conn := some o.conn, panicked := false }
      | Result.returned none =>
        { calls := [Call.MgrGet connFd, Call.Println] ++ o.calls,
          conn := some o.conn, panicked := false }
    else
      let r := env.readFull
      match r.err with
      | some err =>
        if err = Error.EOF ∨ err = Error.HeadBytesLengthFail then
          { calls := [Call.MgrGet connFd, Call.ReadFull conn connFd, Call.ConnClose conn env.connClose]
              ++ (Remove p connFd env.remove).1 ++ [Call.MgrRemove conn],
            conn := some conn, panicked := false }
        else
          { calls := [Call.MgrGet connFd, Call.ReadFull conn connFd],
            conn := some conn, panicked := false }
      | none =>
        if r.message.Len ≤ 0 then
          { calls := [Call.MgrGet connFd, Call.ReadFull conn connFd],
            conn := some conn, panicked := false }
        else
          { calls := [Call.MgrGet connFd, Call.ReadFull conn connFd,
                      Call.Emit (NewRequest conn r.message)],
            conn := some conn, panicked := false }

/-- What a run of the loop, or of a batch, leaves behind. -/
structure LoopOut where
  calls : List Call
  panicked : Bool
  deriving DecidableEq

/-- The loop `for i := 0; i < n; i++` of `Poller.Wait`: `events` is the slice
`p.Events[i:n]` still to be visited and `env i` answers the calls made for the
event at index `i`. -/
def forEvents (p : Poller) (env : Nat → EventEnv) : Nat → List EpollEvent → LoopOut
  | _, [] => { calls := [], panicked := false }
  | i, event :: rest =>
    let o := handleEvent p event (env i)
    if o.panicked then { calls := o.calls, panicked := true }
    else
      let r := forEvents p env (i + 1) rest
      { calls := o.calls ++ r.calls, panicked := r.panicked }

/-- The pair `(n, err)` returned by `unix.EpollWait`, together with the first
`n` slots of `p.Events` it filled in. -/
inductive WaitResult where
  | ok (events : List EpollEvent)
  | fail (err : Error)
  deriving DecidableEq

/-- One turn of the outer `for` of `Poller.Wait` as the environment plays it:
the answer of `EpollWait` and the answers for each event of the batch. -/
structure Cycle where
  wait : WaitResult
  env : Nat → EventEnv

/-- How far a run of `Poller.Wait` got on a finite script: it returned, it
panicked, or it consumed the script and is blocked in the next `EpollWait`. -/
inductive Status where
  | returned
  | panicked
  | blocked
  deriving DecidableEq

/-- What a run of `Poller.Wait` leaves behind. -/
structure WaitOut where
  calls : List Call
  status : Status
  deriving DecidableEq

/-- `Poller.Wait` against a script of cycles. -/
def Wait (p : Poller) : List Cycle → WaitOut
  | [] => { calls := [], status := Status.blocked }
  | c :: rest =>
    match c.wait with
    | WaitResult.fail err =>
      if err = EAGAIN ∨ err = EINTR then
        let r := Wait p rest
        { calls := Call.EpollWait p.Epfd :: r.calls, status := r.status }
      else
        { calls := [Call.EpollWait p.Epfd, Call.LogError, Call.MgrClearByEpFd p.Epfd],
          status := Status.returned }
    | WaitResult.ok events =>
      let b := forEvents p c.env 0 events
      if b.panicked then
        { calls := Call.EpollWait p.Epfd :: b.calls, status := Status.panicked }
      else
        let r := Wait p rest
        { calls := Call.EpollWait p.Epfd :: (b.calls ++ r.calls), status := r.status }

/-- The contract of `unix.Write` for the answers of one event: when the event
resolves to a connection and the write succeeds, the count lies between 0 and
the length of the buffer that was passed. -/
def EventEnv.writeOk (env : EventEnv) : Bool :=
  match env.get with
  | none => true
  | some conn =>
    match env.write.err with
    | some _ => true
    | none => decide (0 ≤ env.write.n) && decide (env.write.n ≤ (conn.writeBuff.length : Int))

/-- The answer of `EpollWait` is a failure that is neither `EAGAIN` nor
`EINTR`. -/
def Cycle.fatal (c : Cycle) : Bool :=
  match c.wait with
  | WaitResult.fail err => !(decide (err = EAGAIN ∨ err = EINTR))
  | WaitResult.ok _ => false

/-- The calls of a batch as the spec describes it: every event of the batch is
handled, in the order returned, the event at index `i` with the answers
`env i`. -/
def batchCalls (p : Poller) (env : Nat → EventEnv) : Nat → List EpollEvent → List Call
  | _, [] => []
  | i, event :: rest => (handleEvent p event (env i)).calls ++ batchCalls p env (i + 1) rest

/-- The calls of one cycle that does not end the loop, as the spec describes it:
the wait call alone when it fails, the wait call and the whole batch when it
succeeds. -/
def cycleCalls (p : Poller) (c : Cycle) : List Call :=
  match c.wait with
  | WaitResult.fail _ => [Call.EpollWait p.Epfd]
  | WaitResult.ok events => Call.EpollWait p.Epfd :: batchCalls p c.env 0 events

/-- The calls of a run of cycles none of which ends the loop. -/
def runCalls (p : Poller) : List Cycle → List Call
  | [] => []
  | c :: rest => cycleCalls p c ++ runCalls p rest

/-! ## Helper lemmas on `DoWrite` -/

theorem DoWrite_short (p : Poller) (conn : Connect) (w : WriteResult) (ctl : Option Error)
    (hw : w.err = none) (h0 : 0 ≤ w.n) (hlt : w.n < (conn.writeBuff.length : Int)) :
    DoWrite p conn w ctl
      = { conn := { conn with writeBuff := conn.writeBuff.drop w.n.toNat },
          calls := [Call.Write conn.fd conn.writeBuff w],
          res := Result.returned none } := by
  have hg : ¬ (w.n < 0 ∨ (conn.writeBuff.length : Int) < w.n) := by omega
  simp [DoWrite, hw, hg, hlt]

theorem DoWrite_full (p : Poller) (conn : Connect) (w : WriteResult) (ctl : Option Error)
    (hw : w.err = none) (hn : w.n = (conn.writeBuff.length : Int)) :
    DoWrite p conn w ctl
      = { conn := { conn with writeBuff := [] },
          calls := [Call.Write conn.fd conn.writeBuff w,
            Call.EpollCtl p.Epfd EPOLL_CTL_MOD conn.fd
              (some { Events := EPOLLIN ||| EPOLLPRI, Fd := int32 conn.fd, Pad := int32 conn.id })
              ctl],
          res := Result.returned ctl } := by
  have hg : ¬ (w.n < 0 ∨ (conn.writeBuff.length : Int) < w.n) := by omega
  have hlt : ¬ w.n < (conn.writeBuff.length : Int) := by omega
  have hd : conn.writeBuff.length ≤ w.n.toNat := by omega
  simp [DoWrite, hw, hg, hlt, ModRead, List.drop_eq_nil_iff, hd]

theorem DoWrite_error (p : Poller) (conn : Connect) (w : WriteResult) (ctl : Option Error)
    (e : Error) (hw : w.err = some e) :
    DoWrite p conn w ctl
      = { conn := conn, calls := [Call.Write conn.fd conn.writeBuff w],
          res := Result.returned (some e) } := by
  simp [DoWrite, hw]

theorem sentBytes_append (xs ys : List Call) :
    sentBytes (xs ++ ys) = sentBytes xs ++ sentBytes ys := by
  induction xs with
  | nil => simp [sentBytes]
  | cons c cs ih => cases c <;> simp [sentBytes, ih]

theorem DoWrite_ok (p : Poller) (conn : Connect) (w : WriteResult) (ctl : Option Error)
    (hw : w.err = none) (h0 : 0 ≤ w.n) (h1 : w.n ≤ (conn.writeBuff.length : Int)) :
    ∃ e more, DoWrite p conn w ctl
      = { conn := { conn with writeBuff := conn.writeBuff.drop w.n.toNat },
          calls := Call.Write conn.fd conn.writeBuff w :: more,
          res := Result.returned e } ∧ sentBytes more = [] := by
  by_cases hlt : w.n < (conn.writeBuff.length : Int)
  · exact ⟨none, [], by rw [DoWrite_short p conn w ctl hw h0 hlt], rfl⟩
  · have hn : w.n = (conn.writeBuff.length : Int) := by omega
    have hd : conn.writeBuff.length ≤ w.n.toNat := by omega
    refine ⟨ctl, [Call.EpollCtl p.Epfd EPOLL_CTL_MOD conn.fd
      (some { Events := EPOLLIN ||| EPOLLPRI, Fd := int32 conn.fd, Pad := int32 conn.id })
      ctl], ?_, ?_⟩
    · rw [DoWrite_full p conn w ctl hw hn, List.drop_eq_nil_iff.mpr hd]
    · simp [sentBytes]

theorem DoWrite_cases (p : Poller) (conn : Connect) (w : WriteResult) (ctl : Option Error) :
    (∃ e, w.err = some e ∧
      DoWrite p conn w ctl
        = { conn := conn, calls := [Call.Write conn.fd conn.writeBuff w],
            res := Result.returned (some e) }) ∨
    (w.err = none ∧ (w.n < 0 ∨ (conn.writeBuff.length : Int) < w.n) ∧
      DoWrite p conn w ctl
        = { conn := conn, calls := [Call.Write conn.fd conn.writeBuff w],
            res := Result.panicked }) ∨
    (w.err = none ∧ 0 ≤ w.n ∧ w.n < (conn.writeBuff.length : Int) ∧
      DoWrite p conn w ctl
        = { conn := { conn with writeBuff := conn.writeBuff.drop w.n.toNat },
            calls := [Call.Write conn.fd conn.writeBuff w],
            res := Result.returned none }) ∨
    (w.err = none ∧ w.n = (conn.writeBuff.length : Int) ∧
      DoWrite p conn w ctl
        = { conn := { conn with writeBuff := [] },
            calls := [Call.Write conn.fd conn.writeBuff w,
              Call.EpollCtl p.Epfd EPOLL_CTL_MOD conn.fd
                (some { Events := EPOLLIN ||| EPOLLPRI, Fd := int32 conn.fd,
                        Pad := int32 conn.id })
                ctl],
            res := Result.returned ctl }) := by
  cases hw : w.err with
  | some e => exact Or.inl ⟨e, rfl, DoWrite_error p conn w ctl e hw⟩
  | none =>
    by_cases hg : w.n < 0 ∨ (conn.writeBuff.length : Int) < w.n
    · refine Or.inr (Or.inl ⟨rfl, hg, ?_⟩)
      simp [DoWrite, hw, hg]
    · by_cases hlt : w.n < (conn.writeBuff.length : Int)
      · exact Or.inr (Or.inr (Or.inl ⟨rfl, by omega, hlt,
          DoWrite_short p conn w ctl hw (by omega) hlt⟩))
      · have hn : w.n = (conn.writeBuff.length : Int) := by omega
        exact Or.inr (Or.inr (Or.inr ⟨rfl, hn, DoWrite_full p conn w ctl hw hn⟩))

theorem EPOLL_CTL_MOD_ne_DEL : EPOLL_CTL_MOD ≠ EPOLL_CTL_DEL := by decide

/-! ## Helper lemmas on the loop -/

theorem forEvents_cons (p : Poller) (env : Nat → EventEnv) (i : Nat) (event : EpollEvent)
    (rest : List EpollEvent) (h : (handleEvent p event (env i)).panicked = false) :
    forEvents p env i (event :: rest)
      = { calls := (handleEvent p event (env i)).calls ++ (forEvents p env (i + 1) rest).calls,
          panicked := (forEvents p env (i + 1) rest).panicked } := by
  simp [forEvents, h]

theorem handleEvent_emit (p : Poller) (event : EpollEvent) (env : EventEnv) (req : Request)
    (h : Call.Emit req ∈ (handleEvent p event env).calls) :
    1 ≤ req.message.payload.length := by
  cases hget : env.get with
  | none => simp [handleEvent, hget, Remove] at h
  | some conn =>
    by_cases hbit : event.Events &&& EPOLLOUT = EPOLLOUT
    · rcases DoWrite_cases p conn env.write env.modRead with
        ⟨e, -, hD⟩ | ⟨-, -, hD⟩ | ⟨-, -, -, hD⟩ | ⟨-, -, hD⟩
      · simp [handleEvent, hget, hbit, hD, Remove] at h
      · simp [handleEvent, hget, hbit, hD, Remove] at h
      · simp [handleEvent, hget, hbit, hD, Remove] at h
      · cases hc : env.modRead <;> rw [hc] at hD <;>
          simp [handleEvent, hget, hbit, hc, hD, Remove] at h
    · cases hr : env.readFull.err with
      | some e =>
        by_cases he : e = Error.EOF ∨ e = Error.HeadBytesLengthFail <;>
          simp [handleEvent, hget, hbit, hr, he, Remove] at h
      | none =>
        by_cases hl : env.readFull.message.Len ≤ 0
        · simp [handleEvent, hget, hbit, hr, hl] at h
        · simp [handleEvent, hget, hbit, hr, hl] at h
          subst h
          simp only [Message.Len] at hl
          simp only [NewRequest]
          omega

theorem forEvents_emit (p : Poller) (env : Nat → EventEnv) (req : Request) :
    ∀ (events : List EpollEvent) (i : Nat),
      Call.Emit req ∈ (forEvents p env i events).calls → 1 ≤ req.message.payload.length := by
  intro events
  induction events with
  | nil => intro i h; simp [forEvents] at h
  | cons event rest ih =>
    intro i h
    by_cases hp : (handleEvent p event (env i)).panicked = true
    · simp [forEvents, hp] at h
      exact handleEvent_emit p event (env i) req h
    · simp [forEvents, hp] at h
      rcases h with h | h
      · exact handleEvent_emit p event (env i) req h
      · exact ih (i + 1) h

theorem Wait_emit (p : Poller) (req : Request) :
    ∀ cs : List Cycle, Call.Emit req ∈ (Wait p cs).calls → 1 ≤ req.message.payload.length := by
  intro cs
  induction cs with
  | nil => intro h; simp [Wait] at h
  | cons c rest ih =>
    intro h
    cases hc : c.wait with
    | fail err =>
      by_cases ht : err = EAGAIN ∨ err = EINTR
      · simp [Wait, hc, ht] at h
        exact ih h
      · simp [Wait, hc, ht] at h
    | ok events =>
      by_cases hp : (forEvents p c.env 0 events).panicked = true
      · simp [Wait, hc, hp] at h
        exact forEvents_emit p c.env req events 0 h
      · simp [Wait, hc, hp] at h
        rcases h with h | h
        · exact forEvents_emit p c.env req events 0 h
        · exact ih h

theorem handleEvent_not_panicked (p : Poller) (event : EpollEvent) (env : EventEnv)
    (hwf : env.writeOk = true) : (handleEvent p event env).panicked = false := by
  cases hget : env.get with
  | none => simp [handleEvent, hget]
  | some conn =>
    by_cases hbit : event.Events &&& EPOLLOUT = EPOLLOUT
    · rcases DoWrite_cases p conn env.write env.modRead with
        ⟨e, -, hD⟩ | ⟨hw, hg, -⟩ | ⟨-, -, -, hD⟩ | ⟨-, -, hD⟩
      · simp [handleEvent, hget, hbit, hD]
      · simp [EventEnv.writeOk, hget, hw] at hwf
        omega
      · simp [handleEvent, hget, hbit, hD]
      · cases hc : env.modRead <;> rw [hc] at hD <;> simp [handleEvent, hget, hbit, hc, hD]
    · cases hr : env.readFull.err with
      | some e =>
        by_cases he : e = Error.EOF ∨ e = Error.HeadBytesLengthFail <;>
          simp [handleEvent, hget, hbit, hr, he]
      | none =>
        by_cases hl : env.readFull.message.Len ≤ 0 <;>
          simp [handleEvent, hget, hbit, hr, hl]

theorem handleEvent_no_clear (p : Poller) (event : EpollEvent) (env : EventEnv) :
    (handleEvent p event env).calls.countP Call.isClear = 0 := by
  cases hget : env.get with
  | none => simp [handleEvent, hget, Remove, Call.isClear]
  | some conn =>
    by_cases hbit : event.Events &&& EPOLLOUT = EPOLLOUT
    · rcases DoWrite_cases p conn env.write env.modRead with
        ⟨e, -, hD⟩ | ⟨-, -, hD⟩ | ⟨-, -, -, hD⟩ | ⟨-, -, hD⟩
      · simp [handleEvent, hget, hbit, hD, Remove, Call.isClear]
      · simp [handleEvent, hget, hbit, hD, Remove, Call.isClear]
      · simp [handleEvent, hget, hbit, hD, Remove, Call.isClear]
      · cases hc : env.modRead <;> rw [hc] at hD <;>
          simp [handleEvent, hget, hbit, hc, hD, Remove, Call.isClear]
    · cases hr : env.readFull.err with
      | some e =>
        by_cases he : e = Error.EOF ∨ e = Error.HeadBytesLengthFail <;>
          simp [handleEvent, hget, hbit, hr, he, Remove, Call.isClear]
      | none =>
        by_cases hl : env.readFull.message.Len ≤ 0 <;>
          simp [handleEvent, hget, hbit, hr, hl, Call.isClear]

theorem forEvents_of_writeOk (p : Poller) (env : Nat → EventEnv)
    (hwf : ∀ j, (env j).writeOk = true) :
    ∀ (events : List EpollEvent) (i : Nat),
      forEvents p env i events = { calls := batchCalls p env i events, panicked := false } := by
  intro events
  induction events with
  | nil => intro i; simp [forEvents, batchCalls]
  | cons event rest ih =>
    intro i
    rw [forEvents_cons p env i event rest (handleEvent_not_panicked p event (env i) (hwf i)),
      ih (i + 1)]
    simp [batchCalls]

theorem batchCalls_no_clear (p : Poller) (env : Nat → EventEnv) :
    ∀ (events : List EpollEvent) (i : Nat),
      (batchCalls p env i events).countP Call.isClear = 0 := by
  intro events
  induction events with
  | nil => intro i; simp [batchCalls]
  | cons event rest ih =>
    intro i
    simp only [batchCalls, List.countP_append, handleEvent_no_clear, ih (i + 1)]

theorem cycleCalls_no_clear (p : Poller) (c : Cycle) :
    (cycleCalls p c).countP Call.isClear = 0 := by
  cases hc : c.wait with
  | fail err => simp [cycleCalls, hc, Call.isClear]
  | ok events =>
    have := batchCalls_no_clear p c.env events 0
    simp only [List.countP_eq_zero] at this
    simp only [cycleCalls, hc, List.countP_eq_zero]
    intro a ha
    rcases List.mem_cons.mp ha with h | h
    · subst h; simp [Call.isClear]
    · exact this a h

theorem runCalls_no_clear (p : Poller) (cs : List Cycle) :
    (runCalls p cs).countP Call.isClear = 0 := by
  induction cs with
  | nil => simp [runCalls]
  | cons c rest ih => simp only [runCalls, List.countP_append, cycleCalls_no_clear, ih]

theorem Wait_cons_fatal (p : Poller) (c : Cycle) (rest : List Cycle) (hf : c.fatal = true) :
    Wait p (c :: rest)
      = { calls := [Call.EpollWait p.Epfd, Call.LogError, Call.MgrClearByEpFd p.Epfd],
          status := Status.returned } := by
  cases hc : c.wait with
  | fail err =>
    have ht : ¬ (err = EAGAIN ∨ err = EINTR) := by
      simpa [Cycle.fatal, hc] using hf
    simp [Wait, hc, ht]
  | ok events => simp [Cycle.fatal, hc] at hf

theorem Wait_cons_nonfatal (p : Poller) (c : Cycle) (rest : List Cycle)
    (hwf : ∀ i, (c.env i).writeOk = true) (hf : c.fatal = false) :
    Wait p (c :: rest)
      = { calls := cycleCalls p c ++ (Wait p rest).calls, status := (Wait p rest).status } := by
  cases hc : c.wait with
  | fail err =>
    have ht : err = EAGAIN ∨ err = EINTR := by
      by_contra hn
      simp [Cycle.fatal, hc, hn] at hf
    simp [Wait, hc, ht, cycleCalls]
  | ok events =>
    simp [Wait, hc, cycleCalls, forEvents_of_writeOk p c.env hwf events 0]

theorem Wait_nonfatal (p : Poller) (cs : List Cycle)
    (hwf : ∀ c ∈ cs, ∀ i, (c.env i).writeOk = true) (hf : ∀ c ∈ cs, c.fatal = false) :
    Wait p cs = { calls := runCalls p cs, status := Status.blocked } := by
  induction cs with
  | nil => simp [Wait, runCalls]
  | cons c rest ih =>
    rw [Wait_cons_nonfatal p c rest (hwf c (List.mem_cons_self _ _))
        (hf c (List.mem_cons_self _ _)),
      ih (fun d hd => hwf d (List.mem_cons_of_mem _ hd))
        (fun d hd => hf d (List.mem_cons_of_mem _ hd))]
    simp [runCalls]

theorem Wait_first_fatal (p : Poller) (c : Cycle) (post : List Cycle) (hc : c.fatal = true) :
    ∀ pre : List Cycle, (∀ d ∈ pre, ∀ i, (d.env i).writeOk = true) →
      (∀ d ∈ pre, d.fatal = false) →
      Wait p (pre ++ c :: post)
        = { calls := runCalls p pre
              ++ [Call.EpollWait p.Epfd, Call.LogError, Call.MgrClearByEpFd p.Epfd],
            status := Status.returned } := by
  intro pre
  induction pre with
  | nil => intro _ _; simpa [runCalls] using Wait_cons_fatal p c post hc
  | cons d rest ih =>
    intro hwf hf
    rw [List.cons_append, Wait_cons_nonfatal p d _ (hwf d (List.mem_cons_self _ _))
        (hf d (List.mem_cons_self _ _)),
      ih (fun x hx => hwf x (List.mem_cons_of_mem _ hx))
        (fun x hx => hf x (List.mem_cons_of_mem _ hx))]
    simp [runCalls]

theorem Wait_summary (p : Poller) (cs : List Cycle)
    (hwf : ∀ c ∈ cs, ∀ i, (c.env i).writeOk = true) :
    (Wait p cs).status = (if cs.any Cycle.fatal then Status.returned else Status.blocked) ∧
    (Wait p cs).calls.countP Call.isClear = (if cs.any Cycle.fatal then 1 else 0) := by
  induction cs with
  | nil => simp [Wait]
  | cons c rest ih =>
    have ih2 := ih (fun d hd => hwf d (List.mem_cons_of_mem _ hd))
    cases hf : c.fatal with
    | true =>
      rw [Wait_cons_fatal p c rest hf]
      simp [hf, Call.isClear]
    | false =>
      rw [Wait_cons_nonfatal p c rest (hwf c (List.mem_cons_self _ _)) hf]
      simp only [List.any_cons, hf, Bool.false_or, List.countP_append, cycleCalls_no_clear,
        Nat.zero_add]
      exact ih2

/-! ## Theorems -/

/-- C1. One step of `DoWrite` whose write succeeds with `0 ≤ n ≤ len b`: the
pending buffer afterwards is `b[n:]`; when `n = len b` the buffer is empty, the
only interest operation is one `EPOLL_CTL_MOD` to read interest on the
connection's fd and id, and its result is returned; when `n < len b` there is no
interest operation and nil is returned. -/
theorem DoWrite_single_step (p : Poller) (conn : Connect) (n : Int) (ctl : Option Error)
    (h0 : 0 ≤ n) (h1 : n ≤ (conn.writeBuff.length : Int)) :
    (DoWrite p conn ⟨n, none⟩ ctl).conn
        = { conn with writeBuff := conn.writeBuff.drop n.toNat } ∧
    (n = (conn.writeBuff.length : Int) →
      (DoWrite p conn ⟨n, none⟩ ctl).conn.writeBuff = [] ∧
      (DoWrite p conn ⟨n, none⟩ ctl).calls
        = [Call.Write conn.fd conn.writeBuff ⟨n, none⟩,
           Call.EpollCtl p.Epfd EPOLL_CTL_MOD conn.fd
             (some { Events := EPOLLIN ||| EPOLLPRI, Fd := int32 conn.fd, Pad := int32 conn.id })
             ctl] ∧
      (DoWrite p conn ⟨n, none⟩ ctl).res = Result.returned ctl) ∧
    (n < (conn.writeBuff.length : Int) →
      (DoWrite p conn ⟨n, none⟩ ctl).calls = [Call.Write conn.fd conn.writeBuff ⟨n, none⟩] ∧
      (DoWrite p conn ⟨n, none⟩ ctl).calls.countP Call.isEpollCtl = 0 ∧
      (DoWrite p conn ⟨n, none⟩ ctl).res = Result.returned none) := by
  have hg : ¬ (n < 0 ∨ (conn.writeBuff.length : Int) < n) := by omega
  refine ⟨?_, ?_, ?_⟩
  · by_cases hlt : n < (conn.writeBuff.length : Int) <;> simp [DoWrite, hg, hlt]
  · intro hn
    have hlt : ¬ n < (conn.writeBuff.length : Int) := by omega
    have hd : conn.writeBuff.length ≤ n.toNat := by omega
    simp [DoWrite, hg, hlt, ModRead, List.drop_eq_nil_iff, hd]
  · intro hlt
    simp [DoWrite, hg, hlt, Call.isEpollCtl]

/-- C1, the scenario of the spec: a buffer of 1000 bytes and a write of 400
leave 600 bytes and no interest operation; then a write of 600 leaves an empty
buffer and one `ModRead`. -/
theorem DoWrite_single_step_witness :
    ((DoWrite ⟨5⟩ ⟨7, 9, List.replicate 1000 0⟩ ⟨400, none⟩ none).conn
        = ⟨7, 9, List.replicate 600 0⟩ ∧
      (DoWrite ⟨5⟩ ⟨7, 9, List.replicate 1000 0⟩ ⟨400, none⟩ none).calls.countP Call.isEpollCtl = 0 ∧
      (DoWrite ⟨5⟩ ⟨7, 9, List.replicate 1000 0⟩ ⟨400, none⟩ none).res = Result.returned none) ∧
    ((DoWrite ⟨5⟩ ⟨7, 9, List.replicate 600 0⟩ ⟨600, none⟩ none).conn = ⟨7, 9, []⟩ ∧
      (DoWrite ⟨5⟩ ⟨7, 9, List.replicate 600 0⟩ ⟨600, none⟩ none).calls
        = [Call.Write 7 (List.replicate 600 0) ⟨600, none⟩,
           Call.EpollCtl 5 EPOLL_CTL_MOD 7 (some ⟨3, 7, 9⟩) none] ∧
      (DoWrite ⟨5⟩ ⟨7, 9, List.replicate 600 0⟩ ⟨600, none⟩ none).res = Result.returned none) := by
  have h1 := DoWrite_single_step ⟨5⟩ ⟨7, 9, List.replicate 1000 0⟩ 400 none (by decide)
    (by simp only [List.length_replicate]; decide)
  have h2 := DoWrite_single_step ⟨5⟩ ⟨7, 9, List.replicate 600 0⟩ 600 none (by decide)
    (by simp only [List.length_replicate]; decide)
  obtain ⟨a1, -, c1⟩ := h1
  obtain ⟨a2, b2, -⟩ := h2
  have c1 := c1 (by simp only [List.length_replicate]; decide)
  have b2 := b2 (by simp only [List.length_replicate]; rfl)
  refine ⟨⟨?_, c1.2.1, c1.2.2⟩, ⟨?_, ?_, b2.2.2⟩⟩
  · rw [a1]
    have : (400 : Int).toNat = 400 := rfl
    simp only [this, List.drop_replicate]
  · rw [a2]
    have : (600 : Int).toNat = 600 := rfl
    simp only [this, List.drop_replicate]
    rfl
  · rw [b2.2.1]
    have e1 : EPOLLIN ||| EPOLLPRI = 3 := by decide
    have e2 : int32 7 = 7 := by decide
    have e3 : int32 9 = 9 := by decide
    simp only [e1, e2, e3]

/-- C2. A whole flush: the writes all succeed with non-negative counts whose sum
is `len b` and whose running sum first reaches `len b` at the last step (the
bound of each count by the bytes still pending follows from these).  Then every
invocation but the last performs no interest operation and returns nil, the last
one performs exactly the `ModRead` of the connection and returns its result, the
buffer ends empty, and the whole trace holds exactly one `ModRead` and exactly
one interest operation. -/
theorem DoWrites_flush_once (p : Poller) (conn : Connect) (steps : List WriteStep)
    (hne : steps ≠ [])
    (hok : ∀ s ∈ steps, s.write.err = none)
    (hpos : ∀ s ∈ steps, 0 ≤ s.write.n)
    (hsum : (counts steps).sum = (conn.writeBuff.length : Int))
    (hfirst : ∀ j, 0 < j → j < steps.length →
      ((counts steps).take j).sum < (conn.writeBuff.length : Int)) :
    (DoWrites p conn steps).outs.length = steps.length ∧
    (DoWrites p conn steps).conn = { conn with writeBuff := [] } ∧
    (∀ o ∈ (DoWrites p conn steps).outs.dropLast,
      o.calls.countP Call.isEpollCtl = 0 ∧ o.res = Result.returned none) ∧
    (∃ o s, (DoWrites p conn steps).outs.getLast? = some o ∧ steps.getLast? = some s ∧
      o.calls.filter Call.isEpollCtl
        = [Call.EpollCtl p.Epfd EPOLL_CTL_MOD conn.fd
            (some { Events := EPOLLIN ||| EPOLLPRI, Fd := int32 conn.fd, Pad := int32 conn.id })
            s.modRead] ∧
      o.res = Result.returned s.modRead) ∧
    (allCalls (DoWrites p conn steps).outs).countP Call.isModRead = 1 ∧
    (allCalls (DoWrites p conn steps).outs).countP Call.isEpollCtl = 1 := by
  induction steps generalizing conn with
  | nil => exact absurd rfl hne
  | cons s rest ih =>
    have hs : s.write.err = none := hok s (List.mem_cons_self _ _)
    have hs0 : 0 ≤ s.write.n := hpos s (List.mem_cons_self _ _)
    cases rest with
    | nil =>
      have hn : s.write.n = (conn.writeBuff.length : Int) := by
        simpa [counts] using hsum
      simp [DoWrites, DoWrite_full p conn s.write s.modRead hs hn, allCalls,
        Call.isEpollCtl, Call.isModRead, EPOLL_CTL_MOD]
    | cons s2 rest2 =>
      have hlt : s.write.n < (conn.writeBuff.length : Int) := by
        have := hfirst 1 (by decide) (by simp)
        simpa [counts] using this
      have hlen : (((conn.writeBuff.drop s.write.n.toNat).length : Nat) : Int)
          = (conn.writeBuff.length : Int) - s.write.n := by
        rw [List.length_drop]; omega
      have ih2 := ih { conn with writeBuff := conn.writeBuff.drop s.write.n.toNat }
        (by simp)
        (fun t ht => hok t (List.mem_cons_of_mem _ ht))
        (fun t ht => hpos t (List.mem_cons_of_mem _ ht))
        (by
          have : s.write.n + (counts (s2 :: rest2)).sum = (conn.writeBuff.length : Int) := by
            simpa [counts] using hsum
          show (counts (s2 :: rest2)).sum = _
          rw [hlen]; omega)
        (by
          intro j hj0 hjl
          have := hfirst (j + 1) (by omega) (by simp at hjl ⊢; omega)
          have h3 : s.write.n + ((counts (s2 :: rest2)).take j).sum
              < (conn.writeBuff.length : Int) := by
            simpa [counts, List.take_succ_cons] using this
          show ((counts (s2 :: rest2)).take j).sum < _
          rw [hlen]; omega)
      obtain ⟨i1, i2, i3, ⟨o, t, i4, i5, i6, i7⟩, i8, i9⟩ := ih2
      have hD : DoWrites p conn (s :: s2 :: rest2)
          = { conn := (DoWrites p { conn with writeBuff := conn.writeBuff.drop s.write.n.toNat }
                        (s2 :: rest2)).conn,
              outs := DoWrite p conn s.write s.modRead ::
                (DoWrites p { conn with writeBuff := conn.writeBuff.drop s.write.n.toNat }
                        (s2 :: rest2)).outs } := by
        rw [DoWrites]
        simp [DoWrite_short p conn s.write s.modRead hs hs0 hlt]
      have hne2 : (DoWrites p { conn with writeBuff := conn.writeBuff.drop s.write.n.toNat }
                        (s2 :: rest2)).outs ≠ [] := by
        intro h
        rw [h] at i1
        simp at i1
      rw [hD]
      refine ⟨by simp [i1], by simpa using i2, ?_, ⟨o, t, ?_, ?_, by simpa using i6, i7⟩, ?_, ?_⟩
      · intro o2 ho2
        rw [List.dropLast_cons_of_ne_nil hne2] at ho2
        rcases List.mem_cons.mp ho2 with h | h
        · subst h
          simp [DoWrite_short p conn s.write s.modRead hs hs0 hlt, Call.isEpollCtl]
        · exact i3 o2 h
      · simp only []
        rw [List.getLast?_cons, i4]
        rfl
      · simpa using i5
      · simp [allCalls, DoWrite_short p conn s.write s.modRead hs hs0 hlt, Call.isModRead, i8]
      · simp [allCalls, DoWrite_short p conn s.write s.modRead hs hs0 hlt, Call.isEpollCtl, i9]

/-- C2 at a concrete flush: a buffer of three bytes written as 1, 0, 2. -/
theorem DoWrites_flush_once_witness :
    (DoWrites ⟨5⟩ ⟨7, 9, [1, 2, 3]⟩
        [⟨⟨1, none⟩, none⟩, ⟨⟨0, none⟩, none⟩, ⟨⟨2, none⟩, none⟩]).conn = ⟨7, 9, []⟩ ∧
    (allCalls (DoWrites ⟨5⟩ ⟨7, 9, [1, 2, 3]⟩
        [⟨⟨1, none⟩, none⟩, ⟨⟨0, none⟩, none⟩, ⟨⟨2, none⟩, none⟩]).outs).countP
      Call.isModRead = 1 :=
  have h := DoWrites_flush_once ⟨5⟩ ⟨7, 9, [1, 2, 3]⟩
    [⟨⟨1, none⟩, none⟩, ⟨⟨0, none⟩, none⟩, ⟨⟨2, none⟩, none⟩]
    (by decide) (by decide) (by decide) (by decide)
    (by
      intro j h0 h3
      have h3 : j < 3 := h3
      interval_cases j <;> decide)
  ⟨h.2.1, h.2.2.2.2.1⟩

/-- C10. No outbound byte is lost, duplicated or reordered: when every write of
a sequence of `DoWrite` invocations succeeds with a count between 0 and the
bytes still pending, the bytes sent by the writes, in order, followed by the
buffer left pending are the original buffer, and the pending length is
`len b` minus the sum of the counts. -/
theorem DoWrites_no_loss (p : Poller) (conn : Connect) (steps : List WriteStep)
    (hok : ∀ s ∈ steps, s.write.err = none)
    (hpos : ∀ s ∈ steps, 0 ≤ s.write.n)
    (hle : ∀ j, j ≤ steps.length →
      ((counts steps).take j).sum ≤ (conn.writeBuff.length : Int)) :
    (DoWrites p conn steps).outs.length = steps.length ∧
    sentBytes (allCalls (DoWrites p conn steps).outs) ++ (DoWrites p conn steps).conn.writeBuff
      = conn.writeBuff ∧
    (((DoWrites p conn steps).conn.writeBuff.length : Nat) : Int)
      = (conn.writeBuff.length : Int) - (counts steps).sum := by
  induction steps generalizing conn with
  | nil => simp [DoWrites, allCalls, sentBytes, counts]
  | cons s rest ih =>
    have hs : s.write.err = none := hok s (List.mem_cons_self _ _)
    have hs0 : 0 ≤ s.write.n := hpos s (List.mem_cons_self _ _)
    have hs1 : s.write.n ≤ (conn.writeBuff.length : Int) := by
      have := hle 1 (by simp)
      simpa [counts] using this
    have hlen : (((conn.writeBuff.drop s.write.n.toNat).length : Nat) : Int)
        = (conn.writeBuff.length : Int) - s.write.n := by
      rw [List.length_drop]; omega
    obtain ⟨e, more, hD, hmore⟩ := DoWrite_ok p conn s.write s.modRead hs hs0 hs1
    have ih2 := ih { conn with writeBuff := conn.writeBuff.drop s.write.n.toNat }
      (fun t ht => hok t (List.mem_cons_of_mem _ ht))
      (fun t ht => hpos t (List.mem_cons_of_mem _ ht))
      (by
        intro j hj
        have := hle (j + 1) (by simp; omega)
        have h3 : s.write.n + ((counts rest).take j).sum ≤ (conn.writeBuff.length : Int) := by
          simpa [counts, List.take_succ_cons] using this
        show ((counts rest).take j).sum ≤ _
        rw [hlen]; omega)
    obtain ⟨i1, i2, i3⟩ := ih2
    have hR : DoWrites p conn (s :: rest)
        = { conn := (DoWrites p { conn with writeBuff := conn.writeBuff.drop s.write.n.toNat }
                      rest).conn,
            outs := DoWrite p conn s.write s.modRead ::
              (DoWrites p { conn with writeBuff := conn.writeBuff.drop s.write.n.toNat }
                      rest).outs } := by
      rw [DoWrites]
      simp [hD]
    rw [hR]
    refine ⟨by simp [i1], ?_, ?_⟩
    · simp only [allCalls, hD, sentBytes, hs, sentBytes_append, hmore, List.append_assoc,
        List.nil_append]
      have i2 : sentBytes (allCalls (DoWrites p
          { fd := conn.fd, id := conn.id, writeBuff := List.drop s.write.n.toNat conn.writeBuff }
          rest).outs) ++ (DoWrites p
          { fd := conn.fd, id := conn.id, writeBuff := List.drop s.write.n.toNat conn.writeBuff }
          rest).conn.writeBuff = List.drop s.write.n.toNat conn.writeBuff := i2
      rw [i2, List.take_append_drop]
    · have i3 : (((DoWrites p
          { fd := conn.fd, id := conn.id, writeBuff := List.drop s.write.n.toNat conn.writeBuff }
          rest).conn.writeBuff.length : Nat) : Int)
          = ((List.drop s.write.n.toNat conn.writeBuff).length : Int) - (counts rest).sum := i3
      have hc : (counts (s :: rest)).sum = s.write.n + (counts rest).sum := by
        simp [counts]
      show (((DoWrites p _ rest).conn.writeBuff.length : Nat) : Int) = _
      rw [i3, hlen, hc]; omega

/-- C10 at a concrete sequence: five bytes written as 2, then 0, then 2; one
byte stays pending. -/
theorem DoWrites_no_loss_witness :
    sentBytes (allCalls (DoWrites ⟨5⟩ ⟨7, 9, [10, 20, 30, 40, 50]⟩
        [⟨⟨2, none⟩, none⟩, ⟨⟨0, none⟩, none⟩, ⟨⟨2, none⟩, none⟩]).outs)
      ++ (DoWrites ⟨5⟩ ⟨7, 9, [10, 20, 30, 40, 50]⟩
        [⟨⟨2, none⟩, none⟩, ⟨⟨0, none⟩, none⟩, ⟨⟨2, none⟩, none⟩]).conn.writeBuff
      = [10, 20, 30, 40, 50] :=
  (DoWrites_no_loss ⟨5⟩ ⟨7, 9, [10, 20, 30, 40, 50]⟩
    [⟨⟨2, none⟩, none⟩, ⟨⟨0, none⟩, none⟩, ⟨⟨2, none⟩, none⟩]
    (by decide) (by decide)
    (by
      intro j hj
      have hj : j ≤ 3 := hj
      interval_cases j <;> decide)).2.1

/-- C3 fails as stated: a connection registered with write interest holds one
pending byte; the write takes it, the `ModRead` fails with `ENOMEM` (errno 12);
afterwards the buffer is empty and write interest is still registered. -/
theorem DoWrite_interest_counterexample :
    Interest.hasWrite (fun x => if x = 7 then some EPOLLOUT else none) 7 = true ∧
    (DoWrite ⟨5⟩ ⟨7, 9, [1]⟩ ⟨1, none⟩ (some (Error.errno 12))).res
      = Result.returned (some (Error.errno 12)) ∧
    ¬ (Interest.hasWrite
          (Interest.run 5 (fun x => if x = 7 then some EPOLLOUT else none)
            (DoWrite ⟨5⟩ ⟨7, 9, [1]⟩ ⟨1, none⟩ (some (Error.errno 12))).calls) 7 = true
        ↔ (DoWrite ⟨5⟩ ⟨7, 9, [1]⟩ ⟨1, none⟩ (some (Error.errno 12))).conn.writeBuff ≠ []) := by
  decide

/-- C3 as amended.  For a connection registered with write interest when
`DoWrite` is invoked, and a write that fails or succeeds with `0 ≤ n ≤ len b`:
afterwards "write interest is registered iff the pending buffer is non-empty"
holds exactly when `DoWrite` returned nil or the write failed on a non-empty
buffer.  So the invariant holds after every invocation that returns nil.  When
the write flushes the buffer and the `ModRead` fails with `e`, `DoWrite` returns
`e` and leaves an empty buffer with write interest still registered; `Wait`,
handling that writable event, then calls `conn.Close`, `Remove(fd)` and
`ConnectMgr.Remove(conn)` once each and goes on, and once that `Remove` of the
connection's descriptor is accepted no write interest is registered any more. -/
theorem DoWrite_interest_invariant (p : Poller) (t : Interest) (conn : Connect)
    (w : WriteResult) (ctl : Option Error)
    (hreg : t.hasWrite conn.fd = true)
    (hvalid : w.err = none → 0 ≤ w.n ∧ w.n ≤ (conn.writeBuff.length : Int)) :
    (((Interest.run p.Epfd t (DoWrite p conn w ctl).calls).hasWrite conn.fd = true
        ↔ (DoWrite p conn w ctl).conn.writeBuff ≠ [])
      ↔ ((DoWrite p conn w ctl).res = Result.returned none
          ∨ (w.err ≠ none ∧ conn.writeBuff ≠ []))) ∧
    (∀ e, w.err = none → w.n = (conn.writeBuff.length : Int) → ctl = some e →
      (DoWrite p conn w ctl).res = Result.returned (some e) ∧
      (DoWrite p conn w ctl).conn = { conn with writeBuff := [] } ∧
      (Interest.run p.Epfd t (DoWrite p conn w ctl).calls).hasWrite conn.fd = true ∧
      (∀ (event : EpollEvent) (env : EventEnv),
        env.get = some conn → env.write = w → env.modRead = ctl →
        event.Events &&& EPOLLOUT = EPOLLOUT →
        (handleEvent p event env).calls
          = [Call.MgrGet event.Fd, Call.Println, Call.Write conn.fd conn.writeBuff w,
             Call.EpollCtl p.Epfd EPOLL_CTL_MOD conn.fd
               (some { Events := EPOLLIN ||| EPOLLPRI, Fd := int32 conn.fd,
                       Pad := int32 conn.id })
               (some e),
             Call.ConnClose { conn with writeBuff := [] } env.connClose,
             Call.EpollCtl p.Epfd EPOLL_CTL_DEL event.Fd none env.remove,
             Call.MgrRemove { conn with writeBuff := [] }, Call.LogError] ∧
        (handleEvent p event env).calls.countP Call.isConnClose = 1 ∧
        (handleEvent p event env).calls.countP Call.isRemove = 1 ∧
        (handleEvent p event env).calls.countP Call.isMgrRemove = 1 ∧
        (handleEvent p event env).panicked = false ∧
        (event.Fd = conn.fd → env.remove = none →
          (Interest.run p.Epfd t (handleEvent p event env).calls).hasWrite conn.fd = false))) := by
  constructor
  · cases hw : w.err with
    | some e =>
      rw [DoWrite_error p conn w ctl e hw]
      simp [Interest.run, Interest.step, hreg]
    | none =>
      obtain ⟨h0, h1⟩ := hvalid hw
      by_cases hlt : w.n < (conn.writeBuff.length : Int)
      · rw [DoWrite_short p conn w ctl hw h0 hlt]
        have hd : w.n.toNat < conn.writeBuff.length := by omega
        simp [Interest.run, Interest.step, hreg, hd]
      · have hn : w.n = (conn.writeBuff.length : Int) := by omega
        rw [DoWrite_full p conn w ctl hw hn]
        have hm : ¬ ((EPOLLIN ||| EPOLLPRI) &&& EPOLLOUT = EPOLLOUT) := by decide
        have ho : EPOLL_CTL_MOD ≠ EPOLL_CTL_DEL := by decide
        cases ctl with
        | none => simp [Interest.run, Interest.step, Interest.hasWrite, hm, ho]
        | some e => simp [Interest.run, Interest.step, hreg]
  · intro e hw hn hctl
    subst hctl
    have hD := DoWrite_full p conn w (some e) hw hn
    have hne := EPOLL_CTL_MOD_ne_DEL
    refine ⟨by rw [hD], by rw [hD], ?_, ?_⟩
    · rw [hD]
      simp [Interest.run, Interest.step, hreg]
    · intro event env hget hwr hmr hbit
      have hc : (handleEvent p event env).calls
          = [Call.MgrGet event.Fd, Call.Println, Call.Write conn.fd conn.writeBuff w,
             Call.EpollCtl p.Epfd EPOLL_CTL_MOD conn.fd
               (some { Events := EPOLLIN ||| EPOLLPRI, Fd := int32 conn.fd,
                       Pad := int32 conn.id })
               (some e),
             Call.ConnClose { conn with writeBuff := [] } env.connClose,
             Call.EpollCtl p.Epfd EPOLL_CTL_DEL event.Fd none env.remove,
             Call.MgrRemove { conn with writeBuff := [] }, Call.LogError] := by
        simp [handleEvent, hget, hbit, hwr, hmr, hD, Remove]
      refine ⟨hc, ?_, ?_, ?_, ?_, ?_⟩
      · rw [hc]; simp [Call.isConnClose]
      · rw [hc]; simp [Call.isRemove, hne]
      · rw [hc]; simp [Call.isMgrRemove]
      · simp [handleEvent, hget, hbit, hwr, hmr, hD]
      · intro hfd hrm
        rw [hc, hfd, hrm]
        simp [Interest.run, Interest.step, Interest.hasWrite]

/-- C3 as amended, at two concrete flushes of a one-byte buffer: when the
`ModRead` succeeds, write interest is gone and the buffer is empty; when it
fails, `Wait` tears the connection down. -/
theorem DoWrite_interest_invariant_witness :
    ((Interest.hasWrite
        (Interest.run 5 (fun x => if x = 7 then some EPOLLOUT else none)
          (DoWrite ⟨5⟩ ⟨7, 9, [1]⟩ ⟨1, none⟩ none).calls) 7 = true
      ↔ (DoWrite ⟨5⟩ ⟨7, 9, [1]⟩ ⟨1, none⟩ none).conn.writeBuff ≠ [])) ∧
    (handleEvent ⟨5⟩ ⟨EPOLLOUT, 7, 9⟩
        ⟨some ⟨7, 9, [1]⟩, none, none, ⟨1, none⟩, some (Error.errno 12), none,
          ⟨⟨[]⟩, none⟩⟩).calls
      = [Call.MgrGet 7, Call.Println, Call.Write 7 [1] ⟨1, none⟩,
         Call.EpollCtl 5 EPOLL_CTL_MOD 7 (some ⟨3, 7, 9⟩) (some (Error.errno 12)),
         Call.ConnClose ⟨7, 9, []⟩ none, Call.EpollCtl 5 EPOLL_CTL_DEL 7 none none,
         Call.MgrRemove ⟨7, 9, []⟩, Call.LogError] :=
  ⟨(DoWrite_interest_invariant ⟨5⟩ (fun x => if x = 7 then some EPOLLOUT else none)
      ⟨7, 9, [1]⟩ ⟨1, none⟩ none (by decide) (by decide)).1.mpr (Or.inl (by decide)),
   ((DoWrite_interest_invariant ⟨5⟩ (fun x => if x = 7 then some EPOLLOUT else none)
      ⟨7, 9, [1]⟩ ⟨1, none⟩ (some (Error.errno 12)) (by decide) (by decide)).2
      (Error.errno 12) rfl rfl rfl).2.2.2 ⟨EPOLLOUT, 7, 9⟩
      ⟨some ⟨7, 9, [1]⟩, none, none, ⟨1, none⟩, some (Error.errno 12), none, ⟨⟨[]⟩, none⟩⟩
      rfl rfl rfl (by decide) |>.1⟩

/-- C4. For an event that resolves to a connection the action depends only on
the `EPOLLOUT` bit of the mask (and the descriptor): with the bit set the trace
is the registry lookup, then the calls of exactly one `DoWrite`, with one
`unix.Write`, no `ReadFull` and no send on the channel, whatever the other bits;
with the bit clear there is exactly one `ReadFull`, on that connection, and no
`unix.Write`.  No event has both. -/
theorem handleEvent_classify (p : Poller) (event : EpollEvent) (env : EventEnv) (conn : Connect)
    (hget : env.get = some conn) :
    (event.Events &&& EPOLLOUT = EPOLLOUT →
      (∃ more, (handleEvent p event env).calls
        = [Call.MgrGet event.Fd, Call.Println]
            ++ (DoWrite p conn env.write env.modRead).calls ++ more
        ∧ more.countP Call.isWrite = 0) ∧
      (handleEvent p event env).calls.countP Call.isWrite = 1 ∧
      (handleEvent p event env).calls.countP Call.isReadFull = 0 ∧
      (handleEvent p event env).calls.countP Call.isEmit = 0) ∧
    (¬ event.Events &&& EPOLLOUT = EPOLLOUT →
      (handleEvent p event env).calls.filter Call.isReadFull = [Call.ReadFull conn event.Fd] ∧
      (handleEvent p event env).calls.countP Call.isReadFull = 1 ∧
      (handleEvent p event env).calls.countP Call.isWrite = 0) ∧
    (∀ other : EpollEvent, other.Fd = event.Fd →
      (other.Events &&& EPOLLOUT = EPOLLOUT ↔ event.Events &&& EPOLLOUT = EPOLLOUT) →
      handleEvent p other env = handleEvent p event env) ∧
    ¬ (0 < (handleEvent p event env).calls.countP Call.isWrite ∧
       0 < (handleEvent p event env).calls.countP Call.isReadFull) := by
  have hset : event.Events &&& EPOLLOUT = EPOLLOUT →
      (∃ more, (handleEvent p event env).calls
        = [Call.MgrGet event.Fd, Call.Println]
            ++ (DoWrite p conn env.write env.modRead).calls ++ more
        ∧ more.countP Call.isWrite = 0) ∧
      (handleEvent p event env).calls.countP Call.isWrite = 1 ∧
      (handleEvent p event env).calls.countP Call.isReadFull = 0 ∧
      (handleEvent p event env).calls.countP Call.isEmit = 0 := by
    intro hbit
    rcases DoWrite_cases p conn env.write env.modRead with
      ⟨e, -, hD⟩ | ⟨-, -, hD⟩ | ⟨-, -, -, hD⟩ | ⟨-, -, hD⟩
    · simp [handleEvent, hget, hbit, hD, Remove, Call.isWrite, Call.isReadFull, Call.isEmit]
    · simp [handleEvent, hget, hbit, hD, Remove, Call.isWrite, Call.isReadFull, Call.isEmit]
    · simp [handleEvent, hget, hbit, hD, Remove, Call.isWrite, Call.isReadFull, Call.isEmit]
    · cases hc : env.modRead <;> rw [hc] at hD <;>
        simp [handleEvent, hget, hbit, hc, hD, Remove, Call.isWrite, Call.isReadFull,
          Call.isEmit]
  have hclr : ¬ event.Events &&& EPOLLOUT = EPOLLOUT →
      (handleEvent p event env).calls.filter Call.isReadFull = [Call.ReadFull conn event.Fd] ∧
      (handleEvent p event env).calls.countP Call.isReadFull = 1 ∧
      (handleEvent p event env).calls.countP Call.isWrite = 0 := by
    intro hbit
    cases hr : env.readFull.err with
    | some e =>
      by_cases he : e = Error.EOF ∨ e = Error.HeadBytesLengthFail <;>
        simp [handleEvent, hget, hbit, hr, he, Remove, Call.isWrite, Call.isReadFull]
    | none =>
      by_cases hl : env.readFull.message.Len ≤ 0 <;>
        simp [handleEvent, hget, hbit, hr, hl, Call.isWrite, Call.isReadFull]
  refine ⟨hset, hclr, ?_, ?_⟩
  · intro other hfd hiff
    by_cases hbit : event.Events &&& EPOLLOUT = EPOLLOUT
    · have hb2 := hiff.mpr hbit
      simp [handleEvent, hget, hbit, hb2, hfd]
    · have hb2 : ¬ other.Events &&& EPOLLOUT = EPOLLOUT := fun h => hbit (hiff.mp h)
      simp [handleEvent, hget, hbit, hb2, hfd]
  · by_cases hbit : event.Events &&& EPOLLOUT = EPOLLOUT
    · have := (hset hbit).2.2.1
      omega
    · have := (hclr hbit).2.2
      omega

/-- C4 at two concrete masks: readable and writable together take the write
path only; error and hang-up alone take the read path only. -/
theorem handleEvent_classify_witness :
    ((handleEvent ⟨5⟩ ⟨EPOLLIN ||| EPOLLOUT, 7, 9⟩
        ⟨some ⟨7, 9, [1, 2]⟩, none, none, ⟨1, none⟩, none, none, ⟨⟨[4]⟩, none⟩⟩).calls.countP
        Call.isWrite = 1 ∧
      (handleEvent ⟨5⟩ ⟨EPOLLIN ||| EPOLLOUT, 7, 9⟩
        ⟨some ⟨7, 9, [1, 2]⟩, none, none, ⟨1, none⟩, none, none, ⟨⟨[4]⟩, none⟩⟩).calls.countP
        Call.isReadFull = 0) ∧
    ((handleEvent ⟨5⟩ ⟨EPOLLERR ||| EPOLLHUP, 7, 9⟩
        ⟨some ⟨7, 9, [1, 2]⟩, none, none, ⟨1, none⟩, none, none, ⟨⟨[4]⟩, none⟩⟩).calls.countP
        Call.isReadFull = 1 ∧
      (handleEvent ⟨5⟩ ⟨EPOLLERR ||| EPOLLHUP, 7, 9⟩
        ⟨some ⟨7, 9, [1, 2]⟩, none, none, ⟨1, none⟩, none, none, ⟨⟨[4]⟩, none⟩⟩).calls.countP
        Call.isWrite = 0) := by
  have h1 := (handleEvent_classify ⟨5⟩ ⟨EPOLLIN ||| EPOLLOUT, 7, 9⟩
      ⟨some ⟨7, 9, [1, 2]⟩, none, none, ⟨1, none⟩, none, none, ⟨⟨[4]⟩, none⟩⟩ ⟨7, 9, [1, 2]⟩
      rfl).1 (by decide)
  have h2 := (handleEvent_classify ⟨5⟩ ⟨EPOLLERR ||| EPOLLHUP, 7, 9⟩
      ⟨some ⟨7, 9, [1, 2]⟩, none, none, ⟨1, none⟩, none, none, ⟨⟨[4]⟩, none⟩⟩ ⟨7, 9, [1, 2]⟩
      rfl).2.1 (by decide)
  exact ⟨⟨h1.2.1, h1.2.2.1⟩, ⟨h2.2.1, h2.2.2⟩⟩

/-- C8. A resolve miss: when the registry reports the descriptor as absent, the
trace of the event is the lookup, one `unix.Close` of the raw descriptor and one
`Remove` of its registration, whatever these two return; there is no write, no
`ReadFull`, no `ConnectMgr.Remove`, no send and no bulk clear, the body does not
panic, and the loop goes on with the next event of the batch. -/
theorem handleEvent_resolve_miss (p : Poller) (event : EpollEvent) (env : EventEnv)
    (hget : env.get = none) :
    (handleEvent p event env).calls
      = [Call.MgrGet event.Fd, Call.Close event.Fd env.closeFd,
         Call.EpollCtl p.Epfd EPOLL_CTL_DEL event.Fd none env.remove] ∧
    (handleEvent p event env).panicked = false ∧
    (handleEvent p event env).calls.countP Call.isClose = 1 ∧
    (handleEvent p event env).calls.countP Call.isRemove = 1 ∧
    (handleEvent p event env).calls.countP Call.isWrite = 0 ∧
    (handleEvent p event env).calls.countP Call.isReadFull = 0 ∧
    (handleEvent p event env).calls.countP Call.isMgrRemove = 0 ∧
    (handleEvent p event env).calls.countP Call.isClear = 0 ∧
    (handleEvent p event env).calls.countP Call.isEmit = 0 ∧
    (∀ (envs : Nat → EventEnv) (i : Nat) (rest : List EpollEvent), envs i = env →
      forEvents p envs i (event :: rest)
        = { calls := (handleEvent p event env).calls ++ (forEvents p envs (i + 1) rest).calls,
            panicked := (forEvents p envs (i + 1) rest).panicked }) := by
  have hp : (handleEvent p event env).panicked = false := by simp [handleEvent, hget]
  refine ⟨by simp [handleEvent, hget, Remove], hp, ?_, ?_, ?_, ?_, ?_, ?_, ?_, ?_⟩
  · simp [handleEvent, hget, Remove, Call.isClose]
  · simp [handleEvent, hget, Remove, Call.isRemove]
  · simp [handleEvent, hget, Remove, Call.isWrite]
  · simp [handleEvent, hget, Remove, Call.isReadFull]
  · simp [handleEvent, hget, Remove, Call.isMgrRemove]
  · simp [handleEvent, hget, Remove, Call.isClear]
  · simp [handleEvent, hget, Remove, Call.isEmit]
  · intro envs i rest henv
    have := forEvents_cons p envs i event rest (by rw [henv]; exact hp)
    rw [henv] at this
    exact this

/-- C8 at a concrete event: the close and the remove both fail, and the batch
goes on to the next event. -/
theorem handleEvent_resolve_miss_witness :
    (handleEvent ⟨5⟩ ⟨EPOLLIN, 7, 9⟩
        ⟨none, some (Error.errno 9), some (Error.errno 2), ⟨0, none⟩, none, none,
          ⟨⟨[]⟩, none⟩⟩).calls
      = [Call.MgrGet 7, Call.Close 7 (some (Error.errno 9)),
         Call.EpollCtl 5 EPOLL_CTL_DEL 7 none (some (Error.errno 2))] :=
  (handleEvent_resolve_miss ⟨5⟩ ⟨EPOLLIN, 7, 9⟩
    ⟨none, some (Error.errno 9), some (Error.errno 2), ⟨0, none⟩, none, none, ⟨⟨[]⟩, none⟩⟩
    rfl).1

/-- C5. A read event on a resolved connection whose `ReadFull` fails with `e`:
when `e` is `io.EOF` or `HeadBytesLengthFail` the connection is torn down
(`conn.Close`, `Remove(fd)` and `ConnectMgr.Remove(conn)`, once each, in that
order); for every other `e` none of the three is called.  The teardown happens
if and only if `e` is one of the two.  In both cases nothing is sent on the
channel and the loop goes on with the next event. -/
theorem handleEvent_read_failure (p : Poller) (event : EpollEvent) (env : EventEnv)
    (conn : Connect) (e : Error)
    (hget : env.get = some conn) (hbit : ¬ event.Events &&& EPOLLOUT = EPOLLOUT)
    (herr : env.readFull.err = some e) :
    ((e = Error.EOF ∨ e = Error.HeadBytesLengthFail) →
      (handleEvent p event env).calls
        = [Call.MgrGet event.Fd, Call.ReadFull conn event.Fd, Call.ConnClose conn env.connClose,
           Call.EpollCtl p.Epfd EPOLL_CTL_DEL event.Fd none env.remove, Call.MgrRemove conn]) ∧
    (¬ (e = Error.EOF ∨ e = Error.HeadBytesLengthFail) →
      (handleEvent p event env).calls = [Call.MgrGet event.Fd, Call.ReadFull conn event.Fd]) ∧
    (((handleEvent p event env).calls.countP Call.isConnClose = 1 ∧
        (handleEvent p event env).calls.countP Call.isRemove = 1 ∧
        (handleEvent p event env).calls.countP Call.isMgrRemove = 1)
      ↔ (e = Error.EOF ∨ e = Error.HeadBytesLengthFail)) ∧
    (((handleEvent p event env).calls.countP Call.isConnClose = 0 ∧
        (handleEvent p event env).calls.countP Call.isRemove = 0 ∧
        (handleEvent p event env).calls.countP Call.isMgrRemove = 0)
      ↔ ¬ (e = Error.EOF ∨ e = Error.HeadBytesLengthFail)) ∧
    (handleEvent p event env).calls.countP Call.isEmit = 0 ∧
    (handleEvent p event env).panicked = false ∧
    (∀ (envs : Nat → EventEnv) (i : Nat) (rest : List EpollEvent), envs i = env →
      forEvents p envs i (event :: rest)
        = { calls := (handleEvent p event env).calls ++ (forEvents p envs (i + 1) rest).calls,
            panicked := (forEvents p envs (i + 1) rest).panicked }) := by
  have hp : (handleEvent p event env).panicked = false := by
    by_cases he : e = Error.EOF ∨ e = Error.HeadBytesLengthFail <;>
      simp [handleEvent, hget, hbit, herr, he]
  have hloop : ∀ (envs : Nat → EventEnv) (i : Nat) (rest : List EpollEvent), envs i = env →
      forEvents p envs i (event :: rest)
        = { calls := (handleEvent p event env).calls ++ (forEvents p envs (i + 1) rest).calls,
            panicked := (forEvents p envs (i + 1) rest).panicked } := by
    intro envs i rest henv
    have := forEvents_cons p envs i event rest (by rw [henv]; exact hp)
    rw [henv] at this
    exact this
  by_cases he : e = Error.EOF ∨ e = Error.HeadBytesLengthFail
  · have hc : (handleEvent p event env).calls
        = [Call.MgrGet event.Fd, Call.ReadFull conn event.Fd, Call.ConnClose conn env.connClose,
           Call.EpollCtl p.Epfd EPOLL_CTL_DEL event.Fd none env.remove, Call.MgrRemove conn] := by
      simp [handleEvent, hget, hbit, herr, he, Remove]
    refine ⟨fun _ => hc, fun h => absurd he h, ?_, ?_, ?_, hp, hloop⟩
    · rw [hc]; simp [Call.isConnClose, Call.isRemove, Call.isMgrRemove, he]
    · rw [hc]; simp [Call.isConnClose, Call.isRemove, Call.isMgrRemove, he]
    · rw [hc]; simp [Call.isEmit]
  · have hc : (handleEvent p event env).calls
        = [Call.MgrGet event.Fd, Call.ReadFull conn event.Fd] := by
      simp [handleEvent, hget, hbit, herr, he]
    refine ⟨fun h => absurd h he, fun _ => hc, ?_, ?_, ?_, hp, hloop⟩
    · rw [hc]; simp [Call.isConnClose, Call.isRemove, Call.isMgrRemove, he]
    · rw [hc]; simp [Call.isConnClose, Call.isRemove, Call.isMgrRemove, he]
    · rw [hc]; simp [Call.isEmit]

/-- C5 at two concrete failures: end of stream tears the connection down, an
`EAGAIN` from the framing reader does not. -/
theorem handleEvent_read_failure_witness :
    (handleEvent ⟨5⟩ ⟨EPOLLIN, 7, 9⟩
        ⟨some ⟨7, 9, []⟩, none, none, ⟨0, none⟩, none, none, ⟨⟨[]⟩, some Error.EOF⟩⟩).calls
      = [Call.MgrGet 7, Call.ReadFull ⟨7, 9, []⟩ 7, Call.ConnClose ⟨7, 9, []⟩ none,
         Call.EpollCtl 5 EPOLL_CTL_DEL 7 none none, Call.MgrRemove ⟨7, 9, []⟩] ∧
    (handleEvent ⟨5⟩ ⟨EPOLLIN, 7, 9⟩
        ⟨some ⟨7, 9, []⟩, none, none, ⟨0, none⟩, none, none, ⟨⟨[]⟩, some EAGAIN⟩⟩).calls
      = [Call.MgrGet 7, Call.ReadFull ⟨7, 9, []⟩ 7] :=
  ⟨(handleEvent_read_failure ⟨5⟩ ⟨EPOLLIN, 7, 9⟩
      ⟨some ⟨7, 9, []⟩, none, none, ⟨0, none⟩, none, none, ⟨⟨[]⟩, some Error.EOF⟩⟩ ⟨7, 9, []⟩
      Error.EOF rfl (by decide) rfl).1 (Or.inl rfl),
   (handleEvent_read_failure ⟨5⟩ ⟨EPOLLIN, 7, 9⟩
      ⟨some ⟨7, 9, []⟩, none, none, ⟨0, none⟩, none, none, ⟨⟨[]⟩, some EAGAIN⟩⟩ ⟨7, 9, []⟩
      EAGAIN rfl (by decide) rfl).2.1 (by decide)⟩

/-- C6. A writable event on a resolved connection.  When the write fails with
`e`, `DoWrite` returns `e`, leaves the connection as it was and performs no
interest operation; `Wait` then calls `conn.Close`, `Remove(fd)` and
`ConnectMgr.Remove(conn)` once each, sends nothing and goes on with the next
event.  When `DoWrite` returns nil, none of the three is called. -/
theorem handleEvent_write_failure (p : Poller) (event : EpollEvent) (env : EventEnv)
    (conn : Connect)
    (hget : env.get = some conn) (hbit : event.Events &&& EPOLLOUT = EPOLLOUT) :
    (∀ e, env.write.err = some e →
      DoWrite p conn env.write env.modRead
        = { conn := conn, calls := [Call.Write conn.fd conn.writeBuff env.write],
            res := Result.returned (some e) } ∧
      (handleEvent p event env).calls
        = [Call.MgrGet event.Fd, Call.Println, Call.Write conn.fd conn.writeBuff env.write,
           Call.ConnClose conn env.connClose,
           Call.EpollCtl p.Epfd EPOLL_CTL_DEL event.Fd none env.remove,
           Call.MgrRemove conn, Call.LogError] ∧
      (handleEvent p event env).calls.countP Call.isConnClose = 1 ∧
      (handleEvent p event env).calls.countP Call.isRemove = 1 ∧
      (handleEvent p event env).calls.countP Call.isMgrRemove = 1 ∧
      (handleEvent p event env).calls.countP Call.isEmit = 0 ∧
      (handleEvent p event env).conn = some conn ∧
      (handleEvent p event env).panicked = false ∧
      (∀ (envs : Nat → EventEnv) (i : Nat) (rest : List EpollEvent), envs i = env →
        forEvents p envs i (event :: rest)
          = { calls := (handleEvent p event env).calls ++ (forEvents p envs (i + 1) rest).calls,
              panicked := (forEvents p envs (i + 1) rest).panicked })) ∧
    ((DoWrite p conn env.write env.modRead).res = Result.returned none →
      (handleEvent p event env).calls
        = [Call.MgrGet event.Fd, Call.Println] ++ (DoWrite p conn env.write env.modRead).calls ∧
      (handleEvent p event env).calls.countP Call.isConnClose = 0 ∧
      (handleEvent p event env).calls.countP Call.isRemove = 0 ∧
      (handleEvent p event env).calls.countP Call.isMgrRemove = 0) := by
  constructor
  · intro e he
    have hD := DoWrite_error p conn env.write env.modRead e he
    have hc : (handleEvent p event env).calls
        = [Call.MgrGet event.Fd, Call.Println, Call.Write conn.fd conn.writeBuff env.write,
           Call.ConnClose conn env.connClose,
           Call.EpollCtl p.Epfd EPOLL_CTL_DEL event.Fd none env.remove,
           Call.MgrRemove conn, Call.LogError] := by
      simp [handleEvent, hget, hbit, hD, Remove]
    have hp : (handleEvent p event env).panicked = false := by
      simp [handleEvent, hget, hbit, hD]
    refine ⟨hD, hc, ?_, ?_, ?_, ?_, ?_, hp, ?_⟩
    · rw [hc]; simp [Call.isConnClose]
    · rw [hc]; simp [Call.isRemove]
    · rw [hc]; simp [Call.isMgrRemove]
    · rw [hc]; simp [Call.isEmit]
    · simp [handleEvent, hget, hbit, hD]
    · intro envs i rest henv
      have := forEvents_cons p envs i event rest (by rw [henv]; exact hp)
      rw [henv] at this
      exact this
  · intro hres
    have hne := EPOLL_CTL_MOD_ne_DEL
    rcases DoWrite_cases p conn env.write env.modRead with
      ⟨e, -, hD⟩ | ⟨-, -, hD⟩ | ⟨-, -, -, hD⟩ | ⟨-, -, hD⟩
    · rw [hD] at hres; simp at hres
    · rw [hD] at hres; simp at hres
    · simp [handleEvent, hget, hbit, hD, Call.isConnClose, Call.isRemove, Call.isMgrRemove]
    · rw [hD] at hres
      have hc : env.modRead = none := by simpa using hres
      rw [hc] at hD
      simp [handleEvent, hget, hbit, hc, hD, Call.isConnClose, Call.isRemove,
        Call.isMgrRemove, hne]

/-- C6 at a concrete event: the write fails with `EPIPE` (errno 32). -/
theorem handleEvent_write_failure_witness :
    (handleEvent ⟨5⟩ ⟨EPOLLOUT, 7, 9⟩
        ⟨some ⟨7, 9, [1, 2]⟩, none, none, ⟨-1, some (Error.errno 32)⟩, none, none,
          ⟨⟨[]⟩, none⟩⟩).calls
      = [Call.MgrGet 7, Call.Println, Call.Write 7 [1, 2] ⟨-1, some (Error.errno 32)⟩,
         Call.ConnClose ⟨7, 9, [1, 2]⟩ none, Call.EpollCtl 5 EPOLL_CTL_DEL 7 none none,
         Call.MgrRemove ⟨7, 9, [1, 2]⟩, Call.LogError] :=
  ((handleEvent_write_failure ⟨5⟩ ⟨EPOLLOUT, 7, 9⟩
      ⟨some ⟨7, 9, [1, 2]⟩, none, none, ⟨-1, some (Error.errno 32)⟩, none, none, ⟨⟨[]⟩, none⟩⟩
      ⟨7, 9, [1, 2]⟩ rfl (by decide)).1 (Error.errno 32) rfl).2.1

/-- C7. A read event on a resolved connection whose `ReadFull` succeeds with
frame `m`: exactly one message, carrying that connection and `m`, is sent on the
channel if and only if `len m ≥ 1`; when `len m = 0` nothing is sent, and in
either case the connection is neither closed, deregistered nor removed from the
registry.  Hence every message ever sent by `Wait`, in any run, has payload
length at least 1. -/
theorem handleEvent_dispatch (p : Poller) (event : EpollEvent) (env : EventEnv)
    (conn : Connect)
    (hget : env.get = some conn) (hbit : ¬ event.Events &&& EPOLLOUT = EPOLLOUT)
    (herr : env.readFull.err = none) :
    (1 ≤ env.readFull.message.payload.length →
      (handleEvent p event env).calls
        = [Call.MgrGet event.Fd, Call.ReadFull conn event.Fd,
           Call.Emit { conn := conn, message := env.readFull.message }]) ∧
    (env.readFull.message.payload.length = 0 →
      (handleEvent p event env).calls = [Call.MgrGet event.Fd, Call.ReadFull conn event.Fd]) ∧
    ((handleEvent p event env).calls.filter Call.isEmit
        = [Call.Emit { conn := conn, message := env.readFull.message }]
      ↔ 1 ≤ env.readFull.message.payload.length) ∧
    ((handleEvent p event env).calls.countP Call.isEmit = 0
      ↔ env.readFull.message.payload.length = 0) ∧
    (handleEvent p event env).calls.countP Call.isConnClose = 0 ∧
    (handleEvent p event env).calls.countP Call.isRemove = 0 ∧
    (handleEvent p event env).calls.countP Call.isMgrRemove = 0 ∧
    (handleEvent p event env).panicked = false ∧
    (∀ (q : Poller) (cs : List Cycle) (req : Request),
      Call.Emit req ∈ (Wait q cs).calls → 1 ≤ req.message.payload.length) := by
  by_cases hl : env.readFull.message.Len ≤ 0
  · have h0 : env.readFull.message.payload.length = 0 := by
      simp only [Message.Len] at hl; omega
    have hc : (handleEvent p event env).calls
        = [Call.MgrGet event.Fd, Call.ReadFull conn event.Fd] := by
      simp [handleEvent, hget, hbit, herr, hl]
    refine ⟨fun h => by omega, fun _ => hc, ?_, ?_, ?_, ?_, ?_, ?_, ?_⟩
    · rw [hc]; simp [Call.isEmit, h0]
    · rw [hc]; simp [Call.isEmit, h0]
    · rw [hc]; simp [Call.isConnClose]
    · rw [hc]; simp [Call.isRemove]
    · rw [hc]; simp [Call.isMgrRemove]
    · simp [handleEvent, hget, hbit, herr, hl]
    · intro q cs req h
      exact Wait_emit q req cs h
  · have h1 : 1 ≤ env.readFull.message.payload.length := by
      simp only [Message.Len] at hl; omega
    have hc : (handleEvent p event env).calls
        = [Call.MgrGet event.Fd, Call.ReadFull conn event.Fd,
           Call.Emit { conn := conn, message := env.readFull.message }] := by
      simp [handleEvent, hget, hbit, herr, hl, NewRequest]
    refine ⟨fun _ => hc, fun h => by omega, ?_, ?_, ?_, ?_, ?_, ?_, ?_⟩
    · rw [hc]; simp [Call.isEmit, h1]
    · rw [hc]
      have hne : env.readFull.message.payload.length ≠ 0 := by omega
      simp [Call.isEmit, hne]
    · rw [hc]; simp [Call.isConnClose]
    · rw [hc]; simp [Call.isRemove]
    · rw [hc]; simp [Call.isMgrRemove]
    · simp [handleEvent, hget, hbit, herr, hl]
    · intro q cs req h
      exact Wait_emit q req cs h

/-- C7 at two concrete frames: a frame of ten bytes is sent, an empty frame is
dropped. -/
theorem handleEvent_dispatch_witness :
    (handleEvent ⟨5⟩ ⟨EPOLLIN, 7, 9⟩
        ⟨some ⟨7, 9, []⟩, none, none, ⟨0, none⟩, none, none,
          ⟨⟨[1, 2, 3, 4, 5, 6, 7, 8, 9, 10]⟩, none⟩⟩).calls
      = [Call.MgrGet 7, Call.ReadFull ⟨7, 9, []⟩ 7,
         Call.Emit ⟨⟨7, 9, []⟩, ⟨[1, 2, 3, 4, 5, 6, 7, 8, 9, 10]⟩⟩] ∧
    (handleEvent ⟨5⟩ ⟨EPOLLIN, 7, 9⟩
        ⟨some ⟨7, 9, []⟩, none, none, ⟨0, none⟩, none, none, ⟨⟨[]⟩, none⟩⟩).calls
      = [Call.MgrGet 7, Call.ReadFull ⟨7, 9, []⟩ 7] :=
  ⟨(handleEvent_dispatch ⟨5⟩ ⟨EPOLLIN, 7, 9⟩
      ⟨some ⟨7, 9, []⟩, none, none, ⟨0, none⟩, none, none,
        ⟨⟨[1, 2, 3, 4, 5, 6, 7, 8, 9, 10]⟩, none⟩⟩ ⟨7, 9, []⟩ rfl (by decide) rfl).1
      (by decide),
   (handleEvent_dispatch ⟨5⟩ ⟨EPOLLIN, 7, 9⟩
      ⟨some ⟨7, 9, []⟩, none, none, ⟨0, none⟩, none, none, ⟨⟨[]⟩, none⟩⟩ ⟨7, 9, []⟩
      rfl (by decide) rfl).2.1 rfl⟩

/-- C9. The exit of `Wait`, for any script of cycles in which `unix.Write` keeps
its contract.  `Wait` returns if and only if some `EpollWait` of the script
fails with an error other than `EAGAIN` and `EINTR`, and it never panics.  On
that path the trace is the one of the cycles before, followed by the failing
wait call, the log line and one `ClearByEpFd(p.Epfd)`: no event of that cycle
is handled and the bulk clear happens exactly once.  A cycle that does not end
the loop makes no bulk clear; a transient failure makes the wait call and
nothing else; a successful wait handles every event of its batch, in the order
returned, and the loop goes on with the next cycle. -/
theorem Wait_exit (p : Poller) (cs : List Cycle)
    (hwf : ∀ c ∈ cs, ∀ i, (c.env i).writeOk = true) :
    ((Wait p cs).status = Status.returned ↔ ∃ c ∈ cs, c.fatal = true) ∧
    (Wait p cs).status ≠ Status.panicked ∧
    ((∀ c ∈ cs, c.fatal = false) →
      Wait p cs = { calls := runCalls p cs, status := Status.blocked }) ∧
    (∀ pre c post, cs = pre ++ c :: post → (∀ d ∈ pre, d.fatal = false) → c.fatal = true →
      Wait p cs
        = { calls := runCalls p pre
              ++ [Call.EpollWait p.Epfd, Call.LogError, Call.MgrClearByEpFd p.Epfd],
            status := Status.returned }) ∧
    ((Wait p cs).calls.countP Call.isClear
      = if (Wait p cs).status = Status.returned then 1 else 0) ∧
    (∀ c ∈ cs, c.fatal = false → (cycleCalls p c).countP Call.isClear = 0) ∧
    (∀ c ∈ cs, ∀ err, c.wait = WaitResult.fail err → c.fatal = false →
      cycleCalls p c = [Call.EpollWait p.Epfd] ∧ (cycleCalls p c).countP Call.isMgr = 0) ∧
    (∀ c ∈ cs, ∀ events, c.wait = WaitResult.ok events →
      cycleCalls p c = Call.EpollWait p.Epfd :: batchCalls p c.env 0 events ∧
      forEvents p c.env 0 events
        = { calls := batchCalls p c.env 0 events, panicked := false }) := by
  obtain ⟨hs, hk⟩ := Wait_summary p cs hwf
  refine ⟨?_, ?_, ?_, ?_, ?_, ?_, ?_, ?_⟩
  · rw [hs]
    by_cases ha : cs.any Cycle.fatal = true
    · simp only [ha, if_true, true_iff]
      obtain ⟨c, hc, hf⟩ := List.any_eq_true.mp ha
      exact ⟨c, hc, hf⟩
    · simp only [ha, if_false]
      constructor
      · intro h; cases h
      · rintro ⟨c, hc, hf⟩
        exact absurd (List.any_eq_true.mpr ⟨c, hc, hf⟩) ha
  · rw [hs]
    split <;> simp
  · exact Wait_nonfatal p cs hwf
  · intro pre c post hcs hpre hc
    subst hcs
    exact Wait_first_fatal p c post hc pre
      (fun d hd => hwf d (List.mem_append_left _ hd)) hpre
  · rw [hs, hk]
    by_cases ha : cs.any Cycle.fatal = true <;> simp [ha]
  · intro c _ _
    exact cycleCalls_no_clear p c
  · intro c _ err hc _
    simp [cycleCalls, hc, Call.isMgr]
  · intro c hc events he
    exact ⟨by simp [cycleCalls, he], forEvents_of_writeOk p c.env (hwf c hc) events 0⟩

/-- C9 at a concrete script: an interrupted wait, a batch of one event that
misses the registry, then a wait that fails with `EBADF` (errno 9); a further
cycle is never reached. -/
theorem Wait_exit_witness :
    Wait ⟨5⟩
        [⟨WaitResult.fail EINTR, fun _ => ⟨none, none, none, ⟨0, none⟩, none, none, ⟨⟨[]⟩, none⟩⟩⟩,
         ⟨WaitResult.ok [⟨EPOLLIN, 7, 9⟩],
           fun _ => ⟨none, none, none, ⟨0, none⟩, none, none, ⟨⟨[]⟩, none⟩⟩⟩,
         ⟨WaitResult.fail (Error.errno 9),
           fun _ => ⟨none, none, none, ⟨0, none⟩, none, none, ⟨⟨[]⟩, none⟩⟩⟩,
         ⟨WaitResult.ok [⟨EPOLLIN, 8, 10⟩],
           fun _ => ⟨none, none, none, ⟨0, none⟩, none, none, ⟨⟨[]⟩, none⟩⟩⟩]
      = { calls := [Call.EpollWait 5, Call.EpollWait 5, Call.MgrGet 7, Call.Close 7 none,
                    Call.EpollCtl 5 EPOLL_CTL_DEL 7 none none, Call.EpollWait 5, Call.LogError,
                    Call.MgrClearByEpFd 5],
          status := Status.returned } :=
  (Wait_exit ⟨5⟩
    [⟨WaitResult.fail EINTR, fun _ => ⟨none, none, none, ⟨0, none⟩, none, none, ⟨⟨[]⟩, none⟩⟩⟩,
     ⟨WaitResult.ok [⟨EPOLLIN, 7, 9⟩],
       fun _ => ⟨none, none, none, ⟨0, none⟩, none, none, ⟨⟨[]⟩, none⟩⟩⟩,
     ⟨WaitResult.fail (Error.errno 9),
       fun _ => ⟨none, none, none, ⟨0, none⟩, none, none, ⟨⟨[]⟩, none⟩⟩⟩,
     ⟨WaitResult.ok [⟨EPOLLIN, 8, 10⟩],
       fun _ => ⟨none, none, none, ⟨0, none⟩, none, none, ⟨⟨[]⟩, none⟩⟩⟩]
    (by
      intro c hc i
      simp only [List.mem_cons, List.mem_singleton, List.not_mem_nil, or_false] at hc
      rcases hc with h | h | h | h <;> subst h <;> rfl)).2.2.2.1
    [⟨WaitResult.fail EINTR, fun _ => ⟨none, none, none, ⟨0, none⟩, none, none, ⟨⟨[]⟩, none⟩⟩⟩,
     ⟨WaitResult.ok [⟨EPOLLIN, 7, 9⟩],
       fun _ => ⟨none, none, none, ⟨0, none⟩, none, none, ⟨⟨[]⟩, none⟩⟩⟩]
    ⟨WaitResult.fail (Error.errno 9),
       fun _ => ⟨none, none, none, ⟨0, none⟩, none, none, ⟨⟨[]⟩, none⟩⟩⟩
    [⟨WaitResult.ok [⟨EPOLLIN, 8, 10⟩],
       fun _ => ⟨none, none, none, ⟨0, none⟩, none, none, ⟨⟨[]⟩, none⟩⟩⟩]
    rfl
    (by
      intro d hd
      simp only [List.mem_cons, List.mem_singleton, List.not_mem_nil, or_false] at hd
      rcases hd with h | h <;> subst h <;> rfl)
    rfl

end Netman
